import Mathlib

/-!
Verification of the Hausdorff-distance GIMP scripts
(`hausdorff-distance.py`, called v1 below, and
`hausdorff-distance-directory.py`, called v2 below).

The scripts work on integer pixel coordinates.  Every distance the
scripts ever compute is `sqrt(d)` for a squared integer distance `d`,
and the only operations performed on distances are comparisons and
`max`; since `sqrt` is strictly monotone on nonnegative arguments, the
float values manipulated by the scripts are represented exactly by the
squared integer under the square root, together with the two IEEE
infinities used as loop initializers (`float("-inf")` in v1,
`float("inf")` for the inner minimum in both versions).  The type `EV`
below packages exactly these three shapes of value, and
`evLT_iff_toEReal` proves that the boolean comparison used by the
embedded loops agrees with the real-number comparison of the
corresponding extended-real values.
-/

namespace AISP

/-- A pixel: an integer coordinate pair, exactly as in the scripts. -/
abbrev Point := ℤ × ℤ

/-- Squared Euclidean distance between two pixels.  The scripts compute
`sqrt(pow(x2-x1,2) + pow(y2-y1,2))`; `dist2` is the integer quantity under
the square root. -/
def dist2 (p q : Point) : ℤ := (q.1 - p.1) ^ 2 + (q.2 - p.2) ^ 2

/-- `euclidean_distance` from both scripts:
`sqrt(pow(point_two[0] - point_one[0], 2) + pow(point_two[1] - point_one[1], 2))`. -/
noncomputable def euclidean_distance (point_one point_two : Point) : ℝ :=
  Real.sqrt (((point_two.1 - point_one.1 : ℤ) : ℝ) ^ 2 +
    ((point_two.2 - point_one.2 : ℤ) : ℝ) ^ 2)

theorem euclidean_distance_eq_sqrt_dist2 (p q : Point) :
    euclidean_distance p q = Real.sqrt ((dist2 p q : ℤ) : ℝ) := by
  unfold euclidean_distance dist2
  push_cast
  ring_nf

theorem dist2_nonneg (p q : Point) : 0 ≤ dist2 p q :=
  add_nonneg (sq_nonneg _) (sq_nonneg _)

theorem dist2_eq_zero_iff (p q : Point) : dist2 p q = 0 ↔ p = q := by
  unfold dist2
  constructor
  · intro h
    have h1 : (q.1 - p.1) ^ 2 = 0 ∧ (q.2 - p.2) ^ 2 = 0 :=
      (add_eq_zero_iff_of_nonneg (sq_nonneg _) (sq_nonneg _)).mp h
    have hx : q.1 = p.1 := by nlinarith [h1.1]
    have hy : q.2 = p.2 := by nlinarith [h1.2]
    exact Prod.ext hx.symm hy.symm
  · rintro rfl; ring

/-- The exact values taken by the float "distance" variables of the
scripts: `negInf` is `float("-inf")`, `fin d` is `sqrt(d)` for the
squared integer distance `d`, `posInf` is `float("inf")`. -/
inductive EV where
  | negInf : EV
  | fin (d : ℤ) : EV
  | posInf : EV
deriving DecidableEq, Repr

/-- The IEEE `<` comparison on the values of `EV` (none of them is a
NaN, and `sqrt` is strictly monotone on nonnegative arguments, so
`sqrt a < sqrt b` iff `a < b`). -/
def evLT : EV → EV → Bool
  | .negInf, .negInf => false
  | .negInf, _ => true
  | .fin _, .negInf => false
  | .fin a, .fin b => a < b
  | .fin _, .posInf => true
  | .posInf, _ => false

/-- The extended-real value denoted by an `EV`. -/
noncomputable def evToEReal : EV → EReal
  | .negInf => ⊥
  | .fin d => ((Real.sqrt ((d : ℤ) : ℝ) : ℝ) : EReal)
  | .posInf => ⊤

/-- `EV`s whose finite payload is a genuine squared distance. -/
def evNonneg : EV → Prop
  | .fin d => 0 ≤ d
  | _ => True

/-- Faithfulness of the embedding: on the values that actually occur
(nonnegative squared distances), the boolean comparison `evLT` agrees
with the comparison of the denoted extended reals. -/
theorem evLT_iff_toEReal (a b : EV) (ha : evNonneg a) (hb : evNonneg b) :
    evLT a b = true ↔ evToEReal a < evToEReal b := by
  cases a <;> cases b <;>
    simp only [evLT, evToEReal, evNonneg] at *
  · simp
  · simp [EReal.bot_lt_coe]
  · simp [bot_lt_top]
  · simp
  · rename_i a b
    rw [EReal.coe_lt_coe_iff]
    simp only [decide_eq_true_eq]
    constructor
    · intro h
      exact Real.sqrt_lt_sqrt (by exact_mod_cast ha) (by exact_mod_cast h)
    · intro h
      by_contra hc
      push_neg at hc
      exact absurd (Real.sqrt_le_sqrt (by exact_mod_cast hc)) (not_le.mpr h)
  · simp [EReal.coe_lt_top]
  · simp
  · simp
  · simp

/- ### The directed Hausdorff computation (`get_maximum_distance`)

v1 (`hausdorff-distance.py`, lines 21-57): the witness pixel of the
other list (`dev_pixel`) is a single variable updated inside the inner
loop, so it always refers to the last reference pixel processed; the
function returns `(maximum_distance, dev_pixel, ref_pixel)`.

v2 (`hausdorff-distance-directory.py`, lines 25-62): the inner loop
tracks its own `minimum_pixel` (initially `None`) and the outer update
copies it into `point_two`; the function returns
`(maximum_distance, point_one, point_two)` with `point_one` the
reference pixel. -/

/-- Inner loop of v1's `get_maximum_distance`: for each pixel of
`dev_list`, update `minimum_distance` and the (outer-scope) `dev_pixel`
on strict improvement. -/
def minFold (p : Point) (minV : EV) (devP : Point) : List Point → EV × Point
  | [] => (minV, devP)
  | q :: rest =>
    if evLT (.fin (dist2 p q)) minV then minFold p (.fin (dist2 p q)) q rest
    else minFold p minV devP rest

/-- Outer loop of v1's `get_maximum_distance`. -/
def gmdLoop (dev : List Point) (maxV : EV) (devP refP : Point) :
    List Point → EV × Point × Point
  | [] => (maxV, devP, refP)
  | p :: rest =>
    let m := minFold p .posInf devP dev
    if evLT maxV m.1 then gmdLoop dev m.1 m.2 p rest
    else gmdLoop dev maxV m.2 refP rest

/-- v1 `get_maximum_distance(ref_list, dev_list)`:
`maximum_distance = float("-inf")`, `ref_pixel = dev_pixel = (0, 0)`;
returns `(maximum_distance, dev_pixel, ref_pixel)`. -/
def get_maximum_distance (ref_list dev_list : List Point) : EV × Point × Point :=
  gmdLoop dev_list .negInf (0, 0) (0, 0) ref_list

/-- Inner loop of v2's `get_maximum_distance`: `minimum_pixel` starts as
`None` and is updated on strict improvement. -/
def minFold2 (p : Point) (minV : EV) (minP : Option Point) :
    List Point → EV × Option Point
  | [] => (minV, minP)
  | q :: rest =>
    if evLT (.fin (dist2 p q)) minV then minFold2 p (.fin (dist2 p q)) (some q) rest
    else minFold2 p minV minP rest

/-- Outer loop of v2's `get_maximum_distance`. -/
def gmdLoopDir (dev : List Point) (maxV : EV) (p1 : Point) (p2 : Option Point) :
    List Point → EV × Point × Option Point
  | [] => (maxV, p1, p2)
  | p :: rest =>
    let m := minFold2 p .posInf none dev
    if evLT maxV m.1 then gmdLoopDir dev m.1 p m.2 rest
    else gmdLoopDir dev maxV p1 p2 rest

/-- v2 `get_maximum_distance(ref_list, dev_list)`:
`maximum_distance = 0.0`, `point_one = point_two = (0, 0)`; returns
`(maximum_distance, point_one, point_two)`. -/
def get_maximum_distance_dir (ref_list dev_list : List Point) :
    EV × Point × Option Point :=
  gmdLoopDir dev_list (.fin 0) (0, 0) (some (0, 0)) ref_list

/-- Claim C10: with an empty reference list (and any other list) both
versions of `get_maximum_distance` run no loop iteration and return
their initialization values unchanged: distance `float("-inf")` in
`hausdorff-distance.py` and `0.0` in `hausdorff-distance-directory.py`,
with both witness points equal to `(0, 0)`; no exception is raised (the
embedding is a total function). -/
theorem C10_empty_reference_returns_init (dev : List Point) :
    get_maximum_distance [] dev = (.negInf, (0, 0), (0, 0)) ∧
      get_maximum_distance_dir [] dev = (.fin 0, (0, 0), some (0, 0)) :=
  ⟨rfl, rfl⟩

/- ### Specification-side min/max folds

`minD2 p dev` is the minimum over `q` in `dev` of the squared distance
`dist2 p q` (for nonempty `dev`), and `maxminD2 ref dev` the maximum
over `p` in `ref` of `minD2 p dev`.  `minEuclid`/`maxminEuclid` are the
same quantities over the real Euclidean distance; the bridge lemmas
below show they are the square root of the integer versions. -/

def minD2 (p : Point) : List Point → ℤ
  | [] => 0
  | q :: rest => rest.foldl (fun m r => min m (dist2 p r)) (dist2 p q)

def maxminD2 : List Point → List Point → ℤ
  | [], _ => 0
  | p :: rest, dev => rest.foldl (fun m r => max m (minD2 r dev)) (minD2 p dev)

/-- Minimum over `dev` of the Euclidean distance from `p`, as the
scripts' inner loop computes it (0 for an empty list, a value never used
by the claims). -/
noncomputable def minEuclid (p : Point) : List Point → ℝ
  | [] => 0
  | q :: rest => rest.foldl (fun m r => min m (euclidean_distance p r)) (euclidean_distance p q)

/-- Maximum over `ref` of `minEuclid · dev`: the mathematical directed
Hausdorff distance between the two finite point lists. -/
noncomputable def maxminEuclid : List Point → List Point → ℝ
  | [], _ => 0
  | p :: rest, dev => rest.foldl (fun m r => max m (minEuclid r dev)) (minEuclid p dev)

theorem evLT_fin_fin (a b : ℤ) : evLT (.fin a) (.fin b) = decide (a < b) := rfl

theorem evLT_negInf_fin (b : ℤ) : evLT .negInf (.fin b) = true := rfl

theorem evLT_fin_posInf (a : ℤ) : evLT (.fin a) .posInf = true := rfl

theorem minFold_val (p : Point) (dev : List Point) : ∀ (m : ℤ) (x : Point),
    (minFold p (.fin m) x dev).1 = .fin (dev.foldl (fun a q => min a (dist2 p q)) m) := by
  induction dev with
  | nil => intro m x; rfl
  | cons q rest ih =>
    intro m x
    simp only [minFold, List.foldl_cons, evLT_fin_fin]
    by_cases h : dist2 p q < m
    · rw [if_pos (by simp [h]), ih, min_eq_right (le_of_lt h)]
    · rw [if_neg (by simp [h]), ih, min_eq_left (not_lt.mp h)]

theorem minFold_posInf_val (p : Point) (q : Point) (rest : List Point) (x : Point) :
    (minFold p .posInf x (q :: rest)).1 = .fin (minD2 p (q :: rest)) := by
  simp only [minFold, evLT_fin_posInf, if_true, minD2]
  exact minFold_val p rest (dist2 p q) q

theorem minFold2_val (p : Point) (dev : List Point) : ∀ (m : ℤ) (x : Option Point),
    (minFold2 p (.fin m) x dev).1 = .fin (dev.foldl (fun a q => min a (dist2 p q)) m) := by
  induction dev with
  | nil => intro m x; rfl
  | cons q rest ih =>
    intro m x
    simp only [minFold2, List.foldl_cons, evLT_fin_fin]
    by_cases h : dist2 p q < m
    · rw [if_pos (by simp [h]), ih, min_eq_right (le_of_lt h)]
    · rw [if_neg (by simp [h]), ih, min_eq_left (not_lt.mp h)]

theorem minFold2_posInf_val (p : Point) (q : Point) (rest : List Point) (x : Option Point) :
    (minFold2 p .posInf x (q :: rest)).1 = .fin (minD2 p (q :: rest)) := by
  simp only [minFold2, evLT_fin_posInf, if_true, minD2]
  exact minFold2_val p rest (dist2 p q) q

theorem foldl_min_dist2_nonneg (p : Point) (dev : List Point) :
    ∀ m : ℤ, 0 ≤ m → 0 ≤ dev.foldl (fun a q => min a (dist2 p q)) m := by
  induction dev with
  | nil => intro m hm; exact hm
  | cons q rest ih =>
    intro m hm
    exact ih _ (le_min hm (dist2_nonneg p q))

theorem minD2_nonneg (p : Point) (dev : List Point) (h : dev ≠ []) : 0 ≤ minD2 p dev := by
  match dev with
  | q :: rest => exact foldl_min_dist2_nonneg p rest (dist2 p q) (dist2_nonneg p q)

theorem le_foldl_max (f : Point → ℤ) (l : List Point) :
    ∀ a : ℤ, a ≤ l.foldl (fun m r => max m (f r)) a := by
  induction l with
  | nil => intro a; exact le_refl a
  | cons q rest ih =>
    intro a
    exact le_trans (le_max_left a (f q)) (ih (max a (f q)))

theorem maxminD2_nonneg (A B : List Point) (hA : A ≠ []) (hB : B ≠ []) :
    0 ≤ maxminD2 A B := by
  match A with
  | p :: rest =>
    exact le_trans (minD2_nonneg p B hB) (le_foldl_max _ rest _)

theorem gmdLoop_val (dev : List Point) (hdev : dev ≠ []) (ref : List Point) :
    ∀ (M : ℤ) (dp rp : Point),
      (gmdLoop dev (.fin M) dp rp ref).1 =
        .fin (ref.foldl (fun m r => max m (minD2 r dev)) M) := by
  induction ref with
  | nil => intro M dp rp; rfl
  | cons p rest ih =>
    intro M dp rp
    match dev, hdev with
    | q :: dtl, _ =>
      simp only [gmdLoop, minFold_posInf_val, evLT_fin_fin, List.foldl_cons]
      by_cases h : M < minD2 p (q :: dtl)
      · rw [if_pos (by simp [h]), ih, max_eq_right (le_of_lt h)]
      · rw [if_neg (by simp [h]), ih, max_eq_left (not_lt.mp h)]

theorem gmdLoopDir_val (dev : List Point) (hdev : dev ≠ []) (ref : List Point) :
    ∀ (M : ℤ) (p1 : Point) (p2 : Option Point),
      (gmdLoopDir dev (.fin M) p1 p2 ref).1 =
        .fin (ref.foldl (fun m r => max m (minD2 r dev)) M) := by
  induction ref with
  | nil => intro M p1 p2; rfl
  | cons p rest ih =>
    intro M p1 p2
    match dev, hdev with
    | q :: dtl, _ =>
      simp only [gmdLoopDir, minFold2_posInf_val, evLT_fin_fin, List.foldl_cons]
      by_cases h : M < minD2 p (q :: dtl)
      · rw [if_pos (by simp [h]), ih, max_eq_right (le_of_lt h)]
      · rw [if_neg (by simp [h]), ih, max_eq_left (not_lt.mp h)]

/-- The value computed by v1's `get_maximum_distance` is the max-min of
the squared distances. -/
theorem get_maximum_distance_val (A B : List Point) (hA : A ≠ []) (hB : B ≠ []) :
    (get_maximum_distance A B).1 = .fin (maxminD2 A B) := by
  match A with
  | p :: rest =>
    match B, hB with
    | q :: dtl, _ =>
      simp only [get_maximum_distance, gmdLoop, minFold_posInf_val, evLT_negInf_fin,
        if_true, maxminD2]
      exact gmdLoop_val (q :: dtl) (by simp) rest _ _ _

/-- The value computed by v2's `get_maximum_distance` is also the
max-min of the squared distances: the `0.0` initialization is absorbed
because every minimum distance is nonnegative. -/
theorem get_maximum_distance_dir_val (A B : List Point) (hA : A ≠ []) (hB : B ≠ []) :
    (get_maximum_distance_dir A B).1 = .fin (maxminD2 A B) := by
  match A with
  | p :: rest =>
    match B, hB with
    | q :: dtl, _ =>
      simp only [get_maximum_distance_dir, gmdLoopDir, minFold2_posInf_val, evLT_fin_fin,
        maxminD2]
      by_cases h : (0 : ℤ) < minD2 p (q :: dtl)
      · rw [if_pos (by simp [h])]
        exact gmdLoopDir_val (q :: dtl) (by simp) rest _ _ _
      · have h0 : minD2 p (q :: dtl) = 0 :=
          le_antisymm (not_lt.mp h) (minD2_nonneg p (q :: dtl) (by simp))
        rw [if_neg (by simp [h]), gmdLoopDir_val (q :: dtl) (by simp) rest 0 _ _, h0]

theorem sqrt_mono : Monotone Real.sqrt := fun _ _ h => Real.sqrt_le_sqrt h

theorem sqrt_foldl_min (p : Point) (l : List Point) :
    ∀ m : ℤ,
      Real.sqrt ((l.foldl (fun a q => min a (dist2 p q)) m : ℤ) : ℝ) =
        l.foldl (fun a q => min a (euclidean_distance p q)) (Real.sqrt ((m : ℤ) : ℝ)) := by
  induction l with
  | nil => intro m; rfl
  | cons q rest ih =>
    intro m
    simp only [List.foldl_cons]
    rw [ih (min m (dist2 p q))]
    congr 1
    have hcast : ((min m (dist2 p q) : ℤ) : ℝ) = min ((m : ℤ) : ℝ) ((dist2 p q : ℤ) : ℝ) := by
      push_cast; rfl
    rw [hcast, sqrt_mono.map_min, euclidean_distance_eq_sqrt_dist2]

theorem minEuclid_eq_sqrt (p : Point) (B : List Point) (hB : B ≠ []) :
    minEuclid p B = Real.sqrt ((minD2 p B : ℤ) : ℝ) := by
  match B with
  | q :: rest =>
    simp only [minEuclid, minD2]
    rw [sqrt_foldl_min p rest (dist2 p q), euclidean_distance_eq_sqrt_dist2]

theorem sqrt_foldl_max (B : List Point) (hB : B ≠ []) (l : List Point) :
    ∀ m : ℤ,
      Real.sqrt ((l.foldl (fun a r => max a (minD2 r B)) m : ℤ) : ℝ) =
        l.foldl (fun a r => max a (minEuclid r B)) (Real.sqrt ((m : ℤ) : ℝ)) := by
  induction l with
  | nil => intro m; rfl
  | cons r rest ih =>
    intro m
    simp only [List.foldl_cons]
    rw [ih (max m (minD2 r B))]
    congr 1
    have hcast : ((max m (minD2 r B) : ℤ) : ℝ) = max ((m : ℤ) : ℝ) ((minD2 r B : ℤ) : ℝ) := by
      push_cast; rfl
    rw [hcast, sqrt_mono.map_max, minEuclid_eq_sqrt r B hB]

theorem maxminEuclid_eq_sqrt (A B : List Point) (hA : A ≠ []) (hB : B ≠ []) :
    maxminEuclid A B = Real.sqrt ((maxminD2 A B : ℤ) : ℝ) := by
  match A with
  | p :: rest =>
    simp only [maxminEuclid, maxminD2]
    rw [sqrt_foldl_max B hB rest (minD2 p B), minEuclid_eq_sqrt p B hB]

/-- Claim C1: for every pair of nonempty point lists, the distance
returned by `get_maximum_distance` (in both scripts) denotes exactly the
maximum over `p` in the reference list of the minimum over `q` in the
other list of the Euclidean distance between `p` and `q`; equivalently,
it is the `EV` encoding of the integer max-min of the squared
distances. -/
theorem C1_directed_distance_is_maxmin (A B : List Point) (hA : A ≠ []) (hB : B ≠ []) :
    evToEReal (get_maximum_distance A B).1 = ((maxminEuclid A B : ℝ) : EReal) ∧
      evToEReal (get_maximum_distance_dir A B).1 = ((maxminEuclid A B : ℝ) : EReal) ∧
      (get_maximum_distance A B).1 = .fin (maxminD2 A B) ∧
      (get_maximum_distance_dir A B).1 = .fin (maxminD2 A B) := by
  have h1 := get_maximum_distance_val A B hA hB
  have h2 := get_maximum_distance_dir_val A B hA hB
  have h3 := maxminEuclid_eq_sqrt A B hA hB
  refine ⟨?_, ?_, h1, h2⟩
  · rw [h1]; simp only [evToEReal]; rw [h3]
  · rw [h2]; simp only [evToEReal]; rw [h3]

/-- Witness for C1 at the concrete input `A = [(0,0)]`, `B = [(3,4)]`. -/
theorem C1_directed_distance_is_maxmin_witness :
    ([((0 : ℤ), (0 : ℤ))] : List Point) ≠ [] ∧
      ([((3 : ℤ), (4 : ℤ))] : List Point) ≠ [] ∧
      (get_maximum_distance [((0 : ℤ), (0 : ℤ))] [((3 : ℤ), (4 : ℤ))]).1 =
        .fin (maxminD2 [((0 : ℤ), (0 : ℤ))] [((3 : ℤ), (4 : ℤ))]) :=
  ⟨by simp, by simp,
    (C1_directed_distance_is_maxmin [((0 : ℤ), (0 : ℤ))] [((3 : ℤ), (4 : ℤ))]
      (by simp) (by simp)).2.2.1⟩

/- ### Empty-input behaviour (claim C5) -/

theorem gmdLoop_emptyDev_posInf (ref : List Point) :
    ∀ dp rp, (gmdLoop [] .posInf dp rp ref).1 = .posInf := by
  induction ref with
  | nil => intro dp rp; rfl
  | cons p rest ih =>
    intro dp rp
    simp only [gmdLoop, minFold]
    exact ih dp rp

theorem gmdLoopDir_emptyDev_posInf (ref : List Point) :
    ∀ p1 p2, (gmdLoopDir [] .posInf p1 p2 ref).1 = .posInf := by
  induction ref with
  | nil => intro p1 p2; rfl
  | cons p rest ih =>
    intro p1 p2
    simp only [gmdLoopDir, minFold2]
    exact ih p1 p2

/-- Counterexample to claim C5: neither version of
`get_maximum_distance` rejects empty input.  With an empty reference
list both return their initialization values (a sentinel), and with an
empty other list both return `float("inf")` as the distance; no fault is
raised anywhere. -/
theorem C5_counterexample_no_rejection :
    get_maximum_distance [] [((1 : ℤ), (1 : ℤ))] = (.negInf, (0, 0), (0, 0)) ∧
      get_maximum_distance_dir [] [((1 : ℤ), (1 : ℤ))] = (.fin 0, (0, 0), some (0, 0)) ∧
      (get_maximum_distance [((1 : ℤ), (1 : ℤ))] []).1 = .posInf ∧
      (get_maximum_distance_dir [((1 : ℤ), (1 : ℤ))] []).1 = .posInf := by
  refine ⟨rfl, rfl, ?_, ?_⟩ <;> decide

/-- Claim C5, amended: `get_maximum_distance` does not validate its
inputs at all.  For an empty reference list it returns its
loop-initialization values unchanged (`-inf` in v1, `0.0` in v2, with
`(0,0)` witnesses), and for an empty other list with a nonempty
reference it silently returns `float("inf")` as the distance; empty
input is never rejected up front. -/
theorem C5_amended_sentinels_not_rejection (dev ref : List Point) (p : Point) :
    get_maximum_distance [] dev = (.negInf, (0, 0), (0, 0)) ∧
      get_maximum_distance_dir [] dev = (.fin 0, (0, 0), some (0, 0)) ∧
      (get_maximum_distance (p :: ref) []).1 = .posInf ∧
      (get_maximum_distance_dir (p :: ref) []).1 = .posInf := by
  refine ⟨rfl, rfl, ?_, ?_⟩
  · simp only [get_maximum_distance, gmdLoop, minFold]
    exact gmdLoop_emptyDev_posInf ref _ _
  · simp only [get_maximum_distance_dir, gmdLoopDir, minFold2]
    exact gmdLoopDir_emptyDev_posInf ref _ _

/- ### Zero distance iff subset (claim C8) -/

theorem foldl_max_eq_zero_iff (f : Point → ℤ) (l : List Point) :
    ∀ a : ℤ, 0 ≤ a → (∀ x ∈ l, 0 ≤ f x) →
      (l.foldl (fun m x => max m (f x)) a = 0 ↔ a = 0 ∧ ∀ x ∈ l, f x = 0) := by
  induction l with
  | nil => intro a _ _; simp
  | cons q rest ih =>
    intro a ha hl
    have hq : 0 ≤ f q := hl q (by simp)
    rw [List.foldl_cons,
      ih (max a (f q)) (le_trans ha (le_max_left _ _)) (fun x hx => hl x (by simp [hx]))]
    constructor
    · rintro ⟨hmax, hrest⟩
      have h1 : a = 0 := le_antisymm (le_trans (le_max_left a (f q)) (le_of_eq hmax)) ha
      have h2 : f q = 0 := le_antisymm (le_trans (le_max_right a (f q)) (le_of_eq hmax)) hq
      exact ⟨h1, fun x hx => by
        rcases List.mem_cons.mp hx with h | h
        · rw [h]; exact h2
        · exact hrest x h⟩
    · rintro ⟨ha0, hall⟩
      refine ⟨?_, fun x hx => hall x (by simp [hx])⟩
      rw [ha0, hall q (by simp)]
      simp

theorem foldl_min_eq_zero_iff (f : Point → ℤ) (l : List Point) :
    ∀ a : ℤ, 0 ≤ a → (∀ x ∈ l, 0 ≤ f x) →
      (l.foldl (fun m x => min m (f x)) a = 0 ↔ a = 0 ∨ ∃ x ∈ l, f x = 0) := by
  induction l with
  | nil => intro a _ _; simp
  | cons q rest ih =>
    intro a ha hl
    have hq : 0 ≤ f q := hl q (by simp)
    rw [List.foldl_cons,
      ih (min a (f q)) (le_min ha hq) (fun x hx => hl x (by simp [hx]))]
    constructor
    · rintro (hmin | ⟨x, hx, hfx⟩)
      · rcases min_eq_iff.mp hmin with ⟨h, _⟩ | ⟨h, _⟩
        · exact Or.inl h
        · exact Or.inr ⟨q, by simp, h⟩
      · exact Or.inr ⟨x, by simp [hx], hfx⟩
    · rintro (ha0 | ⟨x, hx, hfx⟩)
      · left; rw [ha0]; simp [hq]
      · rcases List.mem_cons.mp hx with h | h
        · left; rw [h] at hfx; rw [hfx]; simp [ha]
        · exact Or.inr ⟨x, h, hfx⟩

theorem minD2_eq_zero_iff (p : Point) (B : List Point) (hB : B ≠ []) :
    minD2 p B = 0 ↔ p ∈ B := by
  match B with
  | q :: rest =>
    rw [minD2,
      foldl_min_eq_zero_iff (fun r => dist2 p r) rest (dist2 p q) (dist2_nonneg p q)
        (fun x _ => dist2_nonneg p x)]
    simp only [dist2_eq_zero_iff, List.mem_cons]
    constructor
    · rintro (h | ⟨x, hx, h⟩)
      · exact Or.inl h
      · exact Or.inr (h ▸ hx)
    · rintro (h | h)
      · exact Or.inl h
      · exact Or.inr ⟨p, h, rfl⟩

theorem maxminD2_eq_zero_iff (A B : List Point) (hA : A ≠ []) (hB : B ≠ []) :
    maxminD2 A B = 0 ↔ ∀ p ∈ A, p ∈ B := by
  match A with
  | p :: rest =>
    rw [maxminD2,
      foldl_max_eq_zero_iff (fun r => minD2 r B) rest (minD2 p B) (minD2_nonneg p B hB)
        (fun x _ => minD2_nonneg x B hB)]
    simp only [minD2_eq_zero_iff _ B hB, List.mem_cons]
    constructor
    · rintro ⟨hp, hrest⟩ x hx
      rcases hx with h | h
      · exact h ▸ hp
      · exact hrest x h
    · intro h
      exact ⟨h p (Or.inl rfl), fun x hx => h x (Or.inr hx)⟩

/-- Claim C8: for nonempty point lists, the directed distance returned
by `get_maximum_distance` (either version) is zero exactly when every
point of the reference list is a member of the other list. -/
theorem C8_zero_iff_subset (A B : List Point) (hA : A ≠ []) (hB : B ≠ []) :
    ((get_maximum_distance A B).1 = .fin 0 ↔ ∀ p ∈ A, p ∈ B) ∧
      ((get_maximum_distance_dir A B).1 = .fin 0 ↔ ∀ p ∈ A, p ∈ B) ∧
      (evToEReal (get_maximum_distance A B).1 = (0 : EReal) ↔ ∀ p ∈ A, p ∈ B) := by
  have h1 := get_maximum_distance_val A B hA hB
  have h2 := get_maximum_distance_dir_val A B hA hB
  have hzero := maxminD2_eq_zero_iff A B hA hB
  refine ⟨?_, ?_, ?_⟩
  · rw [h1]; simp only [EV.fin.injEq]; exact hzero
  · rw [h2]; simp only [EV.fin.injEq]; exact hzero
  · rw [h1]
    simp only [evToEReal]
    rw [show ((0 : EReal) = ((0 : ℝ) : EReal)) by norm_num, EReal.coe_eq_coe_iff,
      Real.sqrt_eq_zero']
    rw [← hzero]
    constructor
    · intro h
      have := maxminD2_nonneg A B hA hB
      exact le_antisymm (by exact_mod_cast h) this
    · intro h
      rw [h]; norm_num

/-- Witness for C8 at `A = [(1,2)]`, `B = [(1,2),(3,3)]`. -/
theorem C8_zero_iff_subset_witness :
    ((get_maximum_distance [((1 : ℤ), (2 : ℤ))] [((1 : ℤ), (2 : ℤ)), ((3 : ℤ), (3 : ℤ))]).1 =
        .fin 0 ↔
      ∀ p ∈ ([((1 : ℤ), (2 : ℤ))] : List Point),
        p ∈ ([((1 : ℤ), (2 : ℤ)), ((3 : ℤ), (3 : ℤ))] : List Point)) :=
  (C8_zero_iff_subset [((1 : ℤ), (2 : ℤ))] [((1 : ℤ), (2 : ℤ)), ((3 : ℤ), (3 : ℤ))]
    (by simp) (by simp)).1

/- ### The symmetric combination (claim C4)

v1 (`hausdorff-distance.py`, line 192) computes
`distance = max(ref_layer_distance, dev_layer_distance)` and returns
only the distance.  v2 (`hausdorff-distance-directory.py`, lines
386-392) picks the branch with `ref_layer_distance >=
dev_layer_distance` and draws that branch's witness pair as the primary
pair. -/

/-- Python `max(a, b)`: returns `a` when `a >= b`, else `b`; on the
non-NaN values of `EV`, `a >= b` is the negation of `a < b`. -/
def pyMax (a b : EV) : EV := if evLT a b then b else a

/-- Core of v1's `hausdorff_distance` (line 192), applied to the two
directed results computed from the extracted outline point lists. -/
def hausdorff_distance (A B : List Point) : EV :=
  pyMax (get_maximum_distance A B).1 (get_maximum_distance B A).1

/-- Core of v2's `hausdorff_distance` (lines 386-392): the branch taken
is `ref_layer_distance >= dev_layer_distance`; the result records the
distance, the primary (drawn wider) witness pair and the secondary
pair. -/
def hausdorff_distance_dir (A B : List Point) :
    EV × (Point × Option Point) × (Point × Option Point) :=
  let r := get_maximum_distance_dir A B
  let d := get_maximum_distance_dir B A
  if evLT r.1 d.1 then (d.1, d.2, r.2) else (r.1, r.2, d.2)

theorem ereal_coe_mono : Monotone (fun x : ℝ => (x : EReal)) :=
  fun _ _ h => EReal.coe_le_coe_iff.mpr h

/-- Claim C4: for nonempty point lists the symmetric Hausdorff distance
computed by both scripts equals the maximum of the two directed
distances, is symmetric in the two lists, and is nonnegative; in the
directory version the primary witness pair reported is the pair of
whichever directed call produced the strictly larger value. -/
theorem C4_symmetric_hausdorff (A B : List Point) (hA : A ≠ []) (hB : B ≠ []) :
    hausdorff_distance A B = .fin (max (maxminD2 A B) (maxminD2 B A)) ∧
      hausdorff_distance A B = hausdorff_distance B A ∧
      (hausdorff_distance_dir A B).1 = .fin (max (maxminD2 A B) (maxminD2 B A)) ∧
      (hausdorff_distance_dir A B).1 = (hausdorff_distance_dir B A).1 ∧
      evToEReal (hausdorff_distance A B) =
        max (evToEReal (get_maximum_distance A B).1)
          (evToEReal (get_maximum_distance B A).1) ∧
      0 ≤ maxminD2 A B ∧
      (evLT (get_maximum_distance_dir B A).1 (get_maximum_distance_dir A B).1 = true →
        (hausdorff_distance_dir A B).2.1 = (get_maximum_distance_dir A B).2) ∧
      (evLT (get_maximum_distance_dir A B).1 (get_maximum_distance_dir B A).1 = true →
        (hausdorff_distance_dir A B).2.1 = (get_maximum_distance_dir B A).2) := by
  have hAB := get_maximum_distance_val A B hA hB
  have hBA := get_maximum_distance_val B A hB hA
  have hAB2 := get_maximum_distance_dir_val A B hA hB
  have hBA2 := get_maximum_distance_dir_val B A hB hA
  have hmax : ∀ x y : ℤ, pyMax (.fin x) (.fin y) = .fin (max x y) := by
    intro x y
    simp only [pyMax, evLT_fin_fin]
    by_cases h : x < y
    · rw [if_pos (by simp [h]), max_eq_right (le_of_lt h)]
    · rw [if_neg (by simp [h]), max_eq_left (not_lt.mp h)]
  have hdirval : (hausdorff_distance_dir A B).1 = .fin (max (maxminD2 A B) (maxminD2 B A)) := by
    simp only [hausdorff_distance_dir, hAB2, hBA2, evLT_fin_fin]
    by_cases h : maxminD2 A B < maxminD2 B A
    · rw [if_pos (by simp [h])]
      simp [max_eq_right (le_of_lt h)]
    · rw [if_neg (by simp [h])]
      simp [max_eq_left (not_lt.mp h)]
  have hdirval' : (hausdorff_distance_dir B A).1 = .fin (max (maxminD2 B A) (maxminD2 A B)) := by
    simp only [hausdorff_distance_dir, hAB2, hBA2, evLT_fin_fin]
    by_cases h : maxminD2 B A < maxminD2 A B
    · rw [if_pos (by simp [h])]
      simp [max_eq_right (le_of_lt h)]
    · rw [if_neg (by simp [h])]
      simp [max_eq_left (not_lt.mp h)]
  refine ⟨?_, ?_, hdirval, ?_, ?_, maxminD2_nonneg A B hA hB, ?_, ?_⟩
  · rw [hausdorff_distance, hAB, hBA, hmax]
  · rw [hausdorff_distance, hausdorff_distance, hAB, hBA, hmax, hmax, max_comm]
  · rw [hdirval, hdirval', max_comm]
  · rw [hausdorff_distance, hAB, hBA, hmax]
    simp only [evToEReal]
    have hc : ((max (maxminD2 A B) (maxminD2 B A) : ℤ) : ℝ) =
        max ((maxminD2 A B : ℤ) : ℝ) ((maxminD2 B A : ℤ) : ℝ) := by
      push_cast; rfl
    rw [hc, sqrt_mono.map_max, ereal_coe_mono.map_max]
  · intro h
    rw [hAB2, hBA2, evLT_fin_fin] at h
    have h' : maxminD2 B A < maxminD2 A B := by simpa using h
    simp only [hausdorff_distance_dir, hAB2, hBA2, evLT_fin_fin]
    rw [if_neg (by simp [not_lt.mpr (le_of_lt h')])]
  · intro h
    rw [hAB2, hBA2, evLT_fin_fin] at h
    have h' : maxminD2 A B < maxminD2 B A := by simpa using h
    simp only [hausdorff_distance_dir, hAB2, hBA2, evLT_fin_fin]
    rw [if_pos (by simp [h'])]

/-- Witness for C4 at `A = [(0,0)]`, `B = [(3,4)]`. -/
theorem C4_symmetric_hausdorff_witness :
    hausdorff_distance [((0 : ℤ), (0 : ℤ))] [((3 : ℤ), (4 : ℤ))] =
        .fin (max (maxminD2 [((0 : ℤ), (0 : ℤ))] [((3 : ℤ), (4 : ℤ))])
          (maxminD2 [((3 : ℤ), (4 : ℤ))] [((0 : ℤ), (0 : ℤ))])) ∧
      hausdorff_distance [((0 : ℤ), (0 : ℤ))] [((3 : ℤ), (4 : ℤ))] =
        hausdorff_distance [((3 : ℤ), (4 : ℤ))] [((0 : ℤ), (0 : ℤ))] :=
  ⟨(C4_symmetric_hausdorff [((0 : ℤ), (0 : ℤ))] [((3 : ℤ), (4 : ℤ))] (by simp) (by simp)).1,
    (C4_symmetric_hausdorff [((0 : ℤ), (0 : ℤ))] [((3 : ℤ), (4 : ℤ))] (by simp) (by simp)).2.1⟩

/- ### Witness-pixel analysis (claim C2) -/

/-- Reference fold describing the inner loops' strict-improvement scan:
state is (current minimum squared distance, current minimizing pixel). -/
def minScan (p : Point) (st : ℤ × Point) (l : List Point) : ℤ × Point :=
  l.foldl (fun st r => if dist2 p r < st.1 then (dist2 p r, r) else st) st

/-- The first pixel of the list achieving the minimum squared distance
to `p` under the strict-improvement scan (junk value `(0,0)` on the
empty list, never used by the claims). -/
def firstArgmin (p : Point) : List Point → Point
  | [] => (0, 0)
  | q :: rest => (minScan p (dist2 p q, q) rest).2

theorem minFold_eq_minScan (p : Point) (l : List Point) :
    ∀ (m : ℤ) (x : Point),
      minFold p (.fin m) x l = (.fin (minScan p (m, x) l).1, (minScan p (m, x) l).2) := by
  induction l with
  | nil => intro m x; rfl
  | cons q rest ih =>
    intro m x
    simp only [minFold, minScan, List.foldl_cons, evLT_fin_fin]
    by_cases h : dist2 p q < m
    · rw [if_pos (by simp [h]), if_pos h, ih]
      rfl
    · rw [if_neg (by simp [h]), if_neg h, ih]
      rfl

theorem minFold2_eq_minScan (p : Point) (l : List Point) :
    ∀ (m : ℤ) (x : Point),
      minFold2 p (.fin m) (some x) l =
        (.fin (minScan p (m, x) l).1, some (minScan p (m, x) l).2) := by
  induction l with
  | nil => intro m x; rfl
  | cons q rest ih =>
    intro m x
    simp only [minFold2, minScan, List.foldl_cons, evLT_fin_fin]
    by_cases h : dist2 p q < m
    · rw [if_pos (by simp [h]), if_pos h, ih]
      rfl
    · rw [if_neg (by simp [h]), if_neg h, ih]
      rfl

theorem minFold_posInf_eq (p : Point) (q : Point) (rest : List Point) (x : Point) :
    minFold p .posInf x (q :: rest) =
      (.fin (minD2 p (q :: rest)), firstArgmin p (q :: rest)) := by
  have h := minFold_eq_minScan p rest (dist2 p q) q
  simp only [minFold, evLT_fin_posInf, if_true, h, firstArgmin]
  have hval : (minScan p (dist2 p q, q) rest).1 =
      rest.foldl (fun a r => min a (dist2 p r)) (dist2 p q) := by
    have h2 := minFold_val p rest (dist2 p q) q
    rw [h] at h2
    simpa using h2
  rw [hval]
  rfl

theorem minFold2_posInf_eq (p : Point) (q : Point) (rest : List Point) :
    minFold2 p .posInf none (q :: rest) =
      (.fin (minD2 p (q :: rest)), some (firstArgmin p (q :: rest))) := by
  have h := minFold2_eq_minScan p rest (dist2 p q) q
  simp only [minFold2, evLT_fin_posInf, if_true, h, firstArgmin]
  have hval : (minScan p (dist2 p q, q) rest).1 =
      rest.foldl (fun a r => min a (dist2 p r)) (dist2 p q) := by
    have h2 := minFold2_val p rest (dist2 p q) (some q)
    rw [h] at h2
    simpa using h2
  rw [hval]
  rfl

theorem minScan_cons (p : Point) (st : ℤ × Point) (q : Point) (rest : List Point) :
    minScan p st (q :: rest) =
      minScan p (if dist2 p q < st.1 then (dist2 p q, q) else st) rest := rfl

theorem minScan_props (p : Point) (l : List Point) :
    ∀ (m : ℤ) (x : Point), dist2 p x = m →
      dist2 p (minScan p (m, x) l).2 = (minScan p (m, x) l).1 ∧
        ((minScan p (m, x) l).2 = x ∨ (minScan p (m, x) l).2 ∈ l) := by
  induction l with
  | nil => intro m x hx; exact ⟨hx, Or.inl rfl⟩
  | cons q rest ih =>
    intro m x hx
    rw [minScan_cons]
    by_cases h : dist2 p q < m
    · rw [if_pos h]
      rcases ih (dist2 p q) q rfl with ⟨h1, h2⟩
      refine ⟨h1, ?_⟩
      rcases h2 with h2 | h2
      · exact Or.inr (by simp [h2])
      · exact Or.inr (by simp [h2])
    · rw [if_neg h]
      rcases ih m x hx with ⟨h1, h2⟩
      refine ⟨h1, ?_⟩
      rcases h2 with h2 | h2
      · exact Or.inl h2
      · exact Or.inr (by simp [h2])

theorem firstArgmin_props (p : Point) (B : List Point) (hB : B ≠ []) :
    dist2 p (firstArgmin p B) = minD2 p B ∧ firstArgmin p B ∈ B := by
  match B with
  | q :: rest =>
    rcases minScan_props p rest (dist2 p q) q rfl with ⟨h1, h2⟩
    have hval : (minScan p (dist2 p q, q) rest).1 = minD2 p (q :: rest) := by
      have hm := minFold_val p rest (dist2 p q) q
      rw [minFold_eq_minScan] at hm
      simpa [minD2] using hm
    constructor
    · rw [firstArgmin, h1, hval]
    · rcases h2 with h2 | h2
      · rw [firstArgmin, h2]; simp
      · rw [firstArgmin]; simp [h2]

/-- Loop invariant for v2's outer loop: either no strict improvement has
happened yet (state is still the initialization), or the state records a
processed reference pixel, its first-found nearest pixel and their
squared distance. -/
def DirInv (dev : List Point) (M : ℤ) (p1 : Point) (p2 : Option Point)
    (S : List Point) : Prop :=
  (M = 0 ∧ p1 = (0, 0) ∧ p2 = some (0, 0)) ∨
    (0 < M ∧ p1 ∈ S ∧ p2 = some (firstArgmin p1 dev) ∧ minD2 p1 dev = M)

theorem dirInv_mono (dev : List Point) (M : ℤ) (p1 : Point) (p2 : Option Point)
    (S S' : List Point) (hS : ∀ x ∈ S, x ∈ S') (h : DirInv dev M p1 p2 S) :
    DirInv dev M p1 p2 S' := by
  rcases h with h | ⟨h1, h2, h3, h4⟩
  · exact Or.inl h
  · exact Or.inr ⟨h1, hS _ h2, h3, h4⟩

theorem gmdLoopDir_inv (q0 : Point) (dtl : List Point) (A : List Point) :
    ∀ (S : List Point) (M : ℤ) (p1 : Point) (p2 : Option Point), 0 ≤ M →
      DirInv (q0 :: dtl) M p1 p2 S →
      ∃ M' p1' p2',
        gmdLoopDir (q0 :: dtl) (.fin M) p1 p2 A = (.fin M', p1', p2') ∧
          M' = A.foldl (fun m r => max m (minD2 r (q0 :: dtl))) M ∧
          DirInv (q0 :: dtl) M' p1' p2' (S ++ A) := by
  induction A with
  | nil =>
    intro S M p1 p2 hM hInv
    exact ⟨M, p1, p2, rfl, rfl, by simpa using hInv⟩
  | cons p rest ih =>
    intro S M p1 p2 hM hInv
    simp only [gmdLoopDir, minFold2_posInf_eq, evLT_fin_fin, List.foldl_cons]
    by_cases h : M < minD2 p (q0 :: dtl)
    · rw [if_pos (by simp [h])]
      have hInv2 : DirInv (q0 :: dtl) (minD2 p (q0 :: dtl)) p
          (some (firstArgmin p (q0 :: dtl))) (S ++ [p]) :=
        Or.inr ⟨lt_of_le_of_lt hM h, by simp, rfl, rfl⟩
      rcases ih (S ++ [p]) (minD2 p (q0 :: dtl)) p (some (firstArgmin p (q0 :: dtl)))
          (le_of_lt (lt_of_le_of_lt hM h)) hInv2 with ⟨M', p1', p2', heq, hval, hinv'⟩
      refine ⟨M', p1', p2', heq, ?_, ?_⟩
      · rw [hval, max_eq_right (le_of_lt h)]
      · refine dirInv_mono _ _ _ _ _ _ ?_ hinv'
        intro x hx
        simp only [List.append_assoc, List.singleton_append] at hx
        exact hx
    · rw [if_neg (by simp [h])]
      rcases ih (S ++ [p]) M p1 p2 hM
          (dirInv_mono _ _ _ _ _ _ (fun x hx => by simp [hx]) hInv) with
        ⟨M', p1', p2', heq, hval, hinv'⟩
      refine ⟨M', p1', p2', heq, ?_, ?_⟩
      · rw [hval, max_eq_left (not_lt.mp h)]
      · refine dirInv_mono _ _ _ _ _ _ ?_ hinv'
        intro x hx
        simp only [List.append_assoc, List.singleton_append] at hx
        exact hx

/-- Loop invariant for v1's outer loop, tracking the reference witness
pixel: either no iteration has run (the maximum is still `-inf`), or the
recorded reference pixel is a processed pixel achieving the current
maximum. -/
def RefInv (dev : List Point) (M : EV) (refP : Point) (S : List Point) : Prop :=
  M = .negInf ∨ ∃ m : ℤ, M = .fin m ∧ refP ∈ S ∧ minD2 refP dev = m

theorem refInv_mono (dev : List Point) (M : EV) (refP : Point) (S S' : List Point)
    (hS : ∀ x ∈ S, x ∈ S') (h : RefInv dev M refP S) : RefInv dev M refP S' := by
  rcases h with h | ⟨m, h1, h2, h3⟩
  · exact Or.inl h
  · exact Or.inr ⟨m, h1, hS _ h2, h3⟩

theorem gmdLoop_inv (q0 : Point) (dtl : List Point) (A : List Point) :
    ∀ (S : List Point) (M : EV) (devP refP : Point),
      RefInv (q0 :: dtl) M refP S →
      ∃ M' devP' refP',
        gmdLoop (q0 :: dtl) M devP refP A = (M', devP', refP') ∧
          RefInv (q0 :: dtl) M' refP' (S ++ A) := by
  induction A with
  | nil =>
    intro S M devP refP hInv
    exact ⟨M, devP, refP, rfl, by simpa using hInv⟩
  | cons p rest ih =>
    intro S M devP refP hInv
    simp only [gmdLoop, minFold_posInf_eq]
    rcases hInv with hM | ⟨m, hM, hmem, hmin⟩
    · subst hM
      rw [if_pos (by simp [evLT])]
      have hInv2 : RefInv (q0 :: dtl) (.fin (minD2 p (q0 :: dtl))) p (S ++ [p]) :=
        Or.inr ⟨minD2 p (q0 :: dtl), rfl, by simp, rfl⟩
      rcases ih (S ++ [p]) _ _ p hInv2 with ⟨M', devP', refP', heq, hinv'⟩
      refine ⟨M', devP', refP', heq, refInv_mono _ _ _ _ _ ?_ hinv'⟩
      intro x hx
      simp only [List.append_assoc, List.singleton_append] at hx
      exact hx
    · subst hM
      simp only [evLT_fin_fin]
      by_cases h : m < minD2 p (q0 :: dtl)
      · rw [if_pos (by simp [h])]
        have hInv2 : RefInv (q0 :: dtl) (.fin (minD2 p (q0 :: dtl))) p (S ++ [p]) :=
          Or.inr ⟨minD2 p (q0 :: dtl), rfl, by simp, rfl⟩
        rcases ih (S ++ [p]) _ _ p hInv2 with ⟨M', devP', refP', heq, hinv'⟩
        refine ⟨M', devP', refP', heq, refInv_mono _ _ _ _ _ ?_ hinv'⟩
        intro x hx
        simp only [List.append_assoc, List.singleton_append] at hx
        exact hx
      · rw [if_neg (by simp [h])]
        have hInv2 : RefInv (q0 :: dtl) (.fin m) refP (S ++ [p]) :=
          Or.inr ⟨m, rfl, by simp [hmem], hmin⟩
        rcases ih (S ++ [p]) _ _ refP hInv2 with ⟨M', devP', refP', heq, hinv'⟩
        refine ⟨M', devP', refP', heq, refInv_mono _ _ _ _ _ ?_ hinv'⟩
        intro x hx
        simp only [List.append_assoc, List.singleton_append] at hx
        exact hx

/-- In v1, the `dev_pixel` returned is the first-found nearest pixel of
the other list to the LAST reference pixel processed. -/
theorem gmdLoop_devP_last (q0 : Point) (dtl : List Point) (A' : List Point) :
    ∀ (pl : Point) (M : EV) (devP refP : Point),
      (gmdLoop (q0 :: dtl) M devP refP (A' ++ [pl])).2.1 =
        firstArgmin pl (q0 :: dtl) := by
  induction A' with
  | nil =>
    intro pl M devP refP
    simp only [List.nil_append, gmdLoop, minFold_posInf_eq]
    by_cases h : evLT M (.fin (minD2 pl (q0 :: dtl))) = true
    · rw [if_pos h]
    · rw [if_neg h]
  | cons a A'' ih =>
    intro pl M devP refP
    simp only [List.cons_append, gmdLoop, minFold_posInf_eq]
    by_cases h : evLT M (.fin (minD2 a (q0 :: dtl))) = true
    · rw [if_pos h]; exact ih pl _ _ _
    · rw [if_neg h]; exact ih pl _ _ _

/-- In v1, the returned `ref_pixel` is a reference pixel achieving the
max-min distance. -/
theorem gmd_ref_pixel_correct (A B : List Point) (hA : A ≠ []) (hB : B ≠ []) :
    (get_maximum_distance A B).2.2 ∈ A ∧
      minD2 ((get_maximum_distance A B).2.2) B = maxminD2 A B := by
  match B, hB with
  | q0 :: dtl, _ =>
    rcases gmdLoop_inv q0 dtl A [] .negInf (0, 0) (0, 0) (Or.inl rfl) with
      ⟨M', devP', refP', heq, hinv⟩
    have hval := get_maximum_distance_val A (q0 :: dtl) hA (by simp)
    have hres : get_maximum_distance A (q0 :: dtl) = (M', devP', refP') := heq
    rw [hres] at hval ⊢
    rcases hinv with hM | ⟨m, hM, hmem, hmin⟩
    · rw [hM] at hval; exact absurd hval (by simp)
    · rw [hM] at hval
      have hm : m = maxminD2 A (q0 :: dtl) := by
        simpa using hval
      exact ⟨by simpa using hmem, by simp [hmin, hm]⟩

/-- Claim C2, amended, part for v2: when the max-min distance is
strictly positive, the directory version's witnesses jointly realize the
returned distance; when it is zero, the initialization pair is returned
unchanged. -/
theorem gmdDir_witnesses (A B : List Point) (hA : A ≠ []) (hB : B ≠ []) :
    (0 < maxminD2 A B →
      ∃ p q, get_maximum_distance_dir A B = (.fin (maxminD2 A B), p, some q) ∧
        p ∈ A ∧ q ∈ B ∧ dist2 p q = minD2 p B ∧ minD2 p B = maxminD2 A B) ∧
      (maxminD2 A B = 0 →
        get_maximum_distance_dir A B = (.fin 0, (0, 0), some (0, 0))) := by
  match B, hB with
  | q0 :: dtl, _ =>
    rcases gmdLoopDir_inv q0 dtl A [] 0 (0, 0) (some (0, 0)) (le_refl 0)
        (Or.inl ⟨rfl, rfl, rfl⟩) with ⟨M', p1', p2', heq, _, hinv⟩
    have hval := get_maximum_distance_dir_val A (q0 :: dtl) hA (by simp)
    have hres : get_maximum_distance_dir A (q0 :: dtl) = (.fin M', p1', p2') := heq
    rw [hres] at hval ⊢
    have hM' : M' = maxminD2 A (q0 :: dtl) := by simpa using hval
    constructor
    · intro hpos
      rcases hinv with ⟨h0, _, _⟩ | ⟨_, hmem, hp2, hmin⟩
      · rw [h0] at hM'; exact absurd (hM' ▸ hpos) (by simp)
      · rcases firstArgmin_props p1' (q0 :: dtl) (by simp) with ⟨hd, hqmem⟩
        exact ⟨p1', firstArgmin p1' (q0 :: dtl), by rw [hM', hp2], by simpa using hmem,
          hqmem, hd, by rw [hmin, hM']⟩
    · intro hz
      rcases hinv with ⟨h0, h1, h2⟩ | ⟨hpos, _, _, hmin⟩
      · rw [h1, h2, h0]
      · rw [hM'] at hpos
        exact absurd hz (by omega)

/-- Claim C2, amended: the returned distance and witnesses of
`get_maximum_distance` relate as follows.  In
`hausdorff-distance-directory.py`, when the max-min distance is strictly
positive the returned pair `(point_one, point_two)` is a reference pixel
achieving the max-min together with its first-found nearest pixel of the
other list, so the pair jointly realizes the returned distance; when the
max-min distance is zero the initialization pair `((0,0), (0,0))` is
returned, which need not belong to the lists.  In
`hausdorff-distance.py`, the returned `ref_pixel` is a reference pixel
achieving the max-min distance, but the returned `dev_pixel` is the
nearest pixel of the other list to the LAST reference pixel processed,
so the returned pair need not jointly realize the returned distance. -/
theorem C2_amended_witness_pixels (A B : List Point) (hA : A ≠ []) (hB : B ≠ []) :
    (0 < maxminD2 A B →
      ∃ p q, get_maximum_distance_dir A B = (.fin (maxminD2 A B), p, some q) ∧
        p ∈ A ∧ q ∈ B ∧ dist2 p q = minD2 p B ∧ minD2 p B = maxminD2 A B) ∧
      (maxminD2 A B = 0 →
        get_maximum_distance_dir A B = (.fin 0, (0, 0), some (0, 0))) ∧
      ((get_maximum_distance A B).2.2 ∈ A ∧
        minD2 ((get_maximum_distance A B).2.2) B = maxminD2 A B) ∧
      (∀ (A' : List Point) (pl : Point), A = A' ++ [pl] →
        (get_maximum_distance A B).2.1 = firstArgmin pl B) := by
  rcases gmdDir_witnesses A B hA hB with ⟨h1, h2⟩
  refine ⟨h1, h2, gmd_ref_pixel_correct A B hA hB, ?_⟩
  rintro A' pl rfl
  match B, hB with
  | q0 :: dtl, _ =>
    exact gmdLoop_devP_last q0 dtl A' pl _ _ _

/-- Counterexample to claim C2 as stated.  In `hausdorff-distance.py`,
on `ref = dev = [(0,0), (10,0)]` the returned witness pair is
`dev_pixel = (10,0)`, `ref_pixel = (0,0)`, whose squared distance 100
does not realize the returned distance 0 — the dev pixel is nearest to
the last reference point, not to the maximizing one.  In
`hausdorff-distance-directory.py`, on `ref = dev = [(5,5)]` the returned
witness pixels are the initialization values `(0,0)`, which are not
points of the reference list at all. -/
theorem C2_counterexample_witness_pixels :
    get_maximum_distance [((0 : ℤ), (0 : ℤ)), ((10 : ℤ), (0 : ℤ))]
        [((0 : ℤ), (0 : ℤ)), ((10 : ℤ), (0 : ℤ))] =
      (.fin 0, ((10 : ℤ), (0 : ℤ)), ((0 : ℤ), (0 : ℤ))) ∧
      dist2 ((0 : ℤ), (0 : ℤ)) ((10 : ℤ), (0 : ℤ)) ≠ 0 ∧
      get_maximum_distance_dir [((5 : ℤ), (5 : ℤ))] [((5 : ℤ), (5 : ℤ))] =
        (.fin 0, ((0 : ℤ), (0 : ℤ)), some ((0 : ℤ), (0 : ℤ))) ∧
      ((0 : ℤ), (0 : ℤ)) ∉ ([((5 : ℤ), (5 : ℤ))] : List Point) := by
  refine ⟨?_, ?_, ?_, ?_⟩ <;> decide

/-- Witness for the amended C2 at `A = [(0,0), (3,0)]`, `B = [(0,0)]`
(max-min distance 9 > 0). -/
theorem C2_amended_witness_pixels_witness :
    0 < maxminD2 [((0 : ℤ), (0 : ℤ)), ((3 : ℤ), (0 : ℤ))] [((0 : ℤ), (0 : ℤ))] ∧
      ∃ p q,
        get_maximum_distance_dir [((0 : ℤ), (0 : ℤ)), ((3 : ℤ), (0 : ℤ))] [((0 : ℤ), (0 : ℤ))] =
          (.fin (maxminD2 [((0 : ℤ), (0 : ℤ)), ((3 : ℤ), (0 : ℤ))] [((0 : ℤ), (0 : ℤ))]),
            p, some q) ∧
          p ∈ ([((0 : ℤ), (0 : ℤ)), ((3 : ℤ), (0 : ℤ))] : List Point) ∧
          q ∈ ([((0 : ℤ), (0 : ℤ))] : List Point) ∧
          dist2 p q = minD2 p [((0 : ℤ), (0 : ℤ))] ∧
          minD2 p [((0 : ℤ), (0 : ℤ))] =
            maxminD2 [((0 : ℤ), (0 : ℤ)), ((3 : ℤ), (0 : ℤ))] [((0 : ℤ), (0 : ℤ))] :=
  ⟨by decide,
    (C2_amended_witness_pixels [((0 : ℤ), (0 : ℤ)), ((3 : ℤ), (0 : ℤ))] [((0 : ℤ), (0 : ℤ))]
      (by simp) (by simp)).1 (by decide)⟩

/- ### The raster model

A layer is a rectangular raster of known width and height with a color
(coded as a natural number) at every coordinate.  GIMP's
`layer.get_pixel` raises an exception outside the bounds; the model
returns `none` there.  The scripts compare the color read at a pixel
with the configured outline color for exact equality. -/

structure Layer where
  width : ℤ
  height : ℤ
  pix : ℤ → ℤ → ℕ

/-- `layer.get_pixel(pixel)`: `none` models the exception raised for a
coordinate outside the raster surface. -/
def get_pixel (l : Layer) (p : Point) : Option ℕ :=
  if 0 ≤ p.1 ∧ p.1 < l.width ∧ 0 ≤ p.2 ∧ p.2 < l.height then some (l.pix p.1 p.2) else none

/-- The boundary predicate "this pixel has the outline color"; a pixel
outside the bounds fails the test. -/
def matchesColor (l : Layer) (c : ℕ) (p : Point) : Bool :=
  match get_pixel l p with
  | some c2 => c2 == c
  | none => false

/-- The four 4-connected neighbors in source order (up, right, down,
left), as listed in v2's `search_outline_pixels` and in
`are_pixels_connected`. -/
def neighbors4 (p : Point) : List Point :=
  [(p.1, p.2 + 1), (p.1 + 1, p.2), (p.1, p.2 - 1), (p.1 - 1, p.2)]

/-- The neighbor list of v1's `search_pixel` (lines 80-85): the fourth
entry carries the comment `# Left` in the source but reads
`(pixel[0] + 1, pixel[1])` — the Right offset duplicated, so the Left
neighbor is never listed. -/
def target_pixels_v1 (p : Point) : List Point :=
  [(p.1, p.2 + 1), (p.1 + 1, p.2), (p.1, p.2 - 1), (p.1 + 1, p.2)]

/-- v1 `search_pixel` (`hausdorff-distance.py`, lines 60-96): recursive
DFS appending to `outline_pixels`.  An out-of-bounds access raises,
which the `try`/`finally` converts into returning the accumulator
unchanged; `fuel` bounds the recursion depth (the interpreter's
recursion limit) and is chosen large enough in every statement below. -/
def search_pixel (l : Layer) (c : ℕ) : ℕ → Point → List Point → List Point
  | 0, _, acc => acc
  | fuel + 1, pixel, acc =>
    match get_pixel l pixel with
    | none => acc
    | some c2 =>
      if c2 = c then
        (target_pixels_v1 pixel).foldl
          (fun a t => if t ∈ a then a else search_pixel l c fuel t a) (acc ++ [pixel])
      else acc

/-- v2 `search_outline_pixels` (`hausdorff-distance-directory.py`, lines
65-109): like v1 but with the four distinct neighbors and the pixel the
search came from (`from_pixel`) removed from the neighbor list (the
`remove`-inside-`for` in the source deletes the single occurrence, if
any). -/
def search_outline_pixels (l : Layer) (c : ℕ) :
    ℕ → Point → Option Point → List Point → List Point
  | 0, _, _, acc => acc
  | fuel + 1, pixel, fromP, acc =>
    match get_pixel l pixel with
    | none => acc
    | some c2 =>
      if c2 = c then
        (match fromP with
          | some f => (neighbors4 pixel).erase f
          | none => neighbors4 pixel).foldl
          (fun a t => if t ∈ a then a else search_outline_pixels l c fuel t (some pixel) a)
          (acc ++ [pixel])
      else acc

/-- `are_pixels_connected` (`hausdorff-distance-directory.py`, lines
111-166): DFS from `pixel` toward `target_pixel` with a shared mutable
visited list.  Its `except` clause has no `return`, so a call whose
`get_pixel` raises returns Python `None` (modeled `none`); in the parent
the update `discovered |= None` then raises a `TypeError`, caught by the
parent's own `except`, so the parent also returns `None` and the rest of
its neighbor loop is skipped — modeled by the aborting fold state.
`fuel` bounds the recursion depth; exhaustion is modeled as the same
`None` outcome as any other in-call exception. -/
def are_pixels_connected (l : Layer) (c : ℕ) :
    ℕ → Point → Option Point → Point → Point → List Point → Option Bool × List Point
  | 0, _, _, _, _, vis => (none, vis)
  | fuel + 1, pixel, fromP, startP, targetP, vis =>
    match get_pixel l pixel with
    | none => (none, vis)
    | some c2 =>
      if c2 = c then
        if pixel = targetP ∧ fromP ≠ none then (some true, vis)
        else if pixel = startP ∧ fromP ≠ none then (some false, vis)
        else
          (match fromP with
            | some f => (neighbors4 pixel).erase f
            | none => neighbors4 pixel).foldl
            (fun st t =>
              match st with
              | (none, v) => (none, v)
              | (some disc, v) =>
                if t ∈ v then (some disc, v)
                else
                  match are_pixels_connected l c fuel t (some pixel) startP targetP v with
                  | (none, v2) => (none, v2)
                  | (some b, v2) => (some (disc || b), v2))
            (some false, vis ++ [pixel])
      else (some false, vis)

/-- Connectivity of two pixels through a 4-connected path of
outline-colored pixels: the mathematical notion the spec's
"mutually connected" refers to. -/
inductive Reach (l : Layer) (c : ℕ) : Point → Point → Prop where
  | refl (p : Point) (h : matchesColor l c p = true) : Reach l c p p
  | step (p q r : Point) (h : matchesColor l c p = true) (hq : q ∈ neighbors4 p)
      (hr : Reach l c q r) : Reach l c p r

theorem Reach_matches_left (l : Layer) (c : ℕ) (p r : Point) (h : Reach l c p r) :
    matchesColor l c p = true := by
  cases h with
  | refl _ hm => exact hm
  | step _ _ _ hm _ _ => exact hm

/-- A 2-by-1 layer whose two pixels both carry the outline color 1. -/
def layer2x1 : Layer := ⟨2, 1, fun _ _ => 1⟩

/-- Claim C3, evaluation at the failing input (code bug in
`hausdorff-distance.py`): on a 2-by-1 layer whose two pixels are both
outline-colored, `search_pixel` seeded at `(1,0)` returns only `[(1,0)]`
although `(0,0)` is an outline-colored 4-neighbor of the seed — the
duplicated Right offset means the Left neighbor is never explored.  v2's
`search_outline_pixels`, whose four offsets are distinct, returns both
pixels from the same seed. -/
theorem C3_duplicate_offset_misses_left :
    search_pixel layer2x1 1 10 ((1 : ℤ), (0 : ℤ)) [] = [((1 : ℤ), (0 : ℤ))] ∧
      matchesColor layer2x1 1 ((0 : ℤ), (0 : ℤ)) = true ∧
      ((0 : ℤ), (0 : ℤ)) ∈ neighbors4 ((1 : ℤ), (0 : ℤ)) ∧
      ((0 : ℤ), (0 : ℤ)) ∉ search_pixel layer2x1 1 10 ((1 : ℤ), (0 : ℤ)) [] ∧
      target_pixels_v1 ((1 : ℤ), (0 : ℤ)) =
        [((1 : ℤ), (1 : ℤ)), ((2 : ℤ), (0 : ℤ)), ((1 : ℤ), (-1 : ℤ)), ((2 : ℤ), (0 : ℤ))] ∧
      search_outline_pixels layer2x1 1 10 ((1 : ℤ), (0 : ℤ)) none [] =
        [((1 : ℤ), (0 : ℤ)), ((0 : ℤ), (0 : ℤ))] := by
  refine ⟨?_, ?_, ?_, ?_, ?_, ?_⟩ <;> decide

/-- Claim C9, evaluation at the failing input (code bug in
`hausdorff-distance-directory.py`'s `are_pixels_connected`): on the
2-by-1 all-outline layer, the two pixels are connected and both tracers
swallow the out-of-bounds probes and return the full outline, but
`are_pixels_connected` from `(0,0)` to `(1,0)` returns `None` — the
first out-of-bounds neighbor probe poisons the whole call chain and the
traversal does not continue, so the connected pair tests as not
connected. -/
theorem C9_oob_poisons_are_pixels_connected :
    (are_pixels_connected layer2x1 1 10 ((0 : ℤ), (0 : ℤ)) none ((0 : ℤ), (0 : ℤ))
        ((1 : ℤ), (0 : ℤ)) []).1 = none ∧
      Reach layer2x1 1 ((0 : ℤ), (0 : ℤ)) ((1 : ℤ), (0 : ℤ)) ∧
      search_outline_pixels layer2x1 1 10 ((0 : ℤ), (0 : ℤ)) none [] =
        [((0 : ℤ), (0 : ℤ)), ((1 : ℤ), (0 : ℤ))] ∧
      search_pixel layer2x1 1 10 ((0 : ℤ), (0 : ℤ)) [] =
        [((0 : ℤ), (0 : ℤ)), ((1 : ℤ), (0 : ℤ))] := by
  refine ⟨by decide, ?_, by decide, by decide⟩
  exact Reach.step _ _ _ (by decide) (by decide) (Reach.refl _ (by decide))

/- ### Seed discovery (`first_discovered_pixel`, claim C6) -/

/-- `range(a, b + 1)`: the integers from `a` up to `b`. -/
def ascRange (a b : ℤ) : List ℤ := (List.range (b - a + 1).toNat).map (fun i => a + i)

/-- `range(a, b - 1, -1)`: the integers from `a` down to `b`. -/
def descRange (a b : ℤ) : List ℤ := (List.range (a - b + 1).toNat).map (fun i => a - i)

/-- `direction_on_abscissa` from the source:
`range(x1, x2 + 1) if x1 < x2 else range(x1, x2 - 1, -1)`. -/
def direction_on_abscissa (x1 x2 : ℤ) : List ℤ :=
  if x1 < x2 then ascRange x1 x2 else descRange x1 x2

/-- `direction_on_ordinate` from the source:
`range(y1, y2 + 1) if y1 < y2 else range(y1, y2 - 1, -1)`. -/
def direction_on_ordinate (y1 y2 : ℤ) : List ℤ :=
  if y1 < y2 then ascRange y1 y2 else descRange y1 y2

/-- The inner `for y` loop of `first_discovered_pixel`: it has no
`break`, so every match overwrites `target_pixel` and the last matching
`y` of the column wins. -/
def fdpInner (pred : Point → Bool) (x : ℤ) (ys : List ℤ) (st : Point × Bool) : Point × Bool :=
  ys.foldl (fun st y => if pred (x, y) then ((x, y), true) else st) st

/-- The outer `for x` loop of `first_discovered_pixel`: it breaks after
the first column in which a pixel was found. -/
def fdpOuter (pred : Point → Bool) (ys : List ℤ) : List ℤ → Point × Bool → Point
  | [], st => st.1
  | x :: rest, st =>
    let st2 := fdpInner pred x ys st
    if st2.2 then st2.1 else fdpOuter pred ys rest st2

/-- `first_discovered_pixel` (`hausdorff-distance-directory.py`, lines
169-207): scans the bounding box column by column in the requested
directions, starting from `target_pixel = (0, 0)`, `found_pixel =
False`.  The seed scan of v1's `get_outline_pixels_positions` (lines
117-129) is the `x1 y1 x2 y2 = 0 0 (width-1) (height-1)` instance of the
same loop shape. -/
def first_discovered_pixel (l : Layer) (c : ℕ) (x1 y1 x2 y2 : ℤ) : Point :=
  fdpOuter (fun p => matchesColor l c p) (direction_on_ordinate y1 y2)
    (direction_on_abscissa x1 x2) ((0, 0), false)

/-- Modelled from the spec's words ("returns the first pixel satisfying
the predicate under that order"), for comparison with the source
function: all box pixels in the literal scan order (x outer, y inner)
and the first one satisfying the predicate. -/
def literal_scan (xs ys : List ℤ) : List Point :=
  xs.foldr (fun x acc => ys.map (fun y => ((x, y) : Point)) ++ acc) []

/-- Modelled from the spec's words: the first pixel of the literal scan
order satisfying the predicate. -/
def literal_first_pixel (pred : Point → Bool) (xs ys : List ℤ) : Option Point :=
  (literal_scan xs ys).find? pred

theorem fdpInner_eq (pred : Point → Bool) (x : ℤ) (ys : List ℤ) :
    ∀ st : Point × Bool,
      fdpInner pred x ys st =
        match ys.reverse.find? (fun y => pred (x, y)) with
        | some y => ((x, y), true)
        | none => st := by
  induction ys with
  | nil => intro st; rfl
  | cons b rest ih =>
    intro st
    have hstep : fdpInner pred x (b :: rest) st =
        fdpInner pred x rest (if pred (x, b) then ((x, b), true) else st) := rfl
    rw [hstep, ih, List.reverse_cons, List.find?_append]
    cases hfind : rest.reverse.find? (fun y => pred (x, y)) with
    | some y => rfl
    | none =>
      by_cases hb : pred (x, b) = true
      · simp [List.find?, hb]
      · simp only [Bool.not_eq_true] at hb
        simp [List.find?, hb]

theorem fdpOuter_eq (pred : Point → Bool) (ys : List ℤ) (xs : List ℤ) :
    ∀ st : Point × Bool, st.2 = false →
      (∃ x ∈ xs, ∃ y ∈ ys, pred (x, y) = true) →
      ∃ x y, fdpOuter pred ys xs st = (x, y) ∧
        xs.find? (fun a => ys.any (fun b => pred (a, b))) = some x ∧
        ys.reverse.find? (fun b => pred (x, b)) = some y := by
  induction xs with
  | nil =>
    intro st _ hex
    rcases hex with ⟨x, hx, _⟩
    exact absurd hx (List.not_mem_nil x)
  | cons a rest ih =>
    intro st hst hex
    simp only [fdpOuter]
    by_cases hcol : ys.any (fun b => pred (a, b)) = true
    · have hsome : (ys.reverse.find? (fun y => pred (a, y))).isSome := by
        simp only [List.find?_isSome]
        rcases List.any_eq_true.mp hcol with ⟨y, hy, hpy⟩
        exact ⟨y, List.mem_reverse.mpr hy, by simpa using hpy⟩
      rcases Option.isSome_iff_exists.mp hsome with ⟨y, hy⟩
      have hinner : fdpInner pred a ys st = ((a, y), true) := by
        rw [fdpInner_eq, hy]
      rw [hinner]
      refine ⟨a, y, by simp, ?_, hy⟩
      simp only [List.find?_cons]
      simp [hcol]
    · have hnone : ys.reverse.find? (fun y => pred (a, y)) = none := by
        rw [List.find?_eq_none]
        intro y hy
        simp only [Bool.not_eq_true]
        by_contra hc
        simp only [Bool.not_eq_false] at hc
        exact absurd (List.any_eq_true.mpr ⟨y, List.mem_reverse.mp hy, hc⟩) hcol
      have hinner : fdpInner pred a ys st = st := by
        rw [fdpInner_eq, hnone]
      rw [hinner, hst]
      simp only [Bool.false_eq_true, if_false]
      have hex2 : ∃ x ∈ rest, ∃ y ∈ ys, pred (x, y) = true := by
        rcases hex with ⟨x, hx, y, hy, hpy⟩
        rcases List.mem_cons.mp hx with hx | hx
        · subst hx
          exact absurd (List.any_eq_true.mpr ⟨y, hy, hpy⟩) hcol
        · exact ⟨x, hx, y, hy, hpy⟩
      rcases ih st hst hex2 with ⟨x, y, h1, h2, h3⟩
      have hcolf : (ys.any fun b => pred (a, b)) = false := by simpa using hcol
      refine ⟨x, y, h1, ?_, h3⟩
      simp only [List.find?_cons]
      simp [hcolf]
      exact h2

/-- Claim C6, amended: for every bounding box and scan order, when some
pixel of the box satisfies the predicate, `first_discovered_pixel`
returns the pixel `(x, y)` where `x` is the first abscissa in the x scan
direction whose column contains a match, and `y` is the LAST matching
ordinate of that column in the y scan direction (the inner loop has no
`break`, so later matches in the column overwrite earlier ones).  When
every column holds at most one matching pixel this coincides with the
literal scan order; otherwise it differs from it. -/
theorem C6_amended_last_match_of_first_column (l : Layer) (c : ℕ) (x1 y1 x2 y2 : ℤ)
    (h : ∃ x ∈ direction_on_abscissa x1 x2, ∃ y ∈ direction_on_ordinate y1 y2,
      matchesColor l c (x, y) = true) :
    (direction_on_abscissa x1 x2).find?
        (fun a => (direction_on_ordinate y1 y2).any (fun b => matchesColor l c (a, b))) =
      some (first_discovered_pixel l c x1 y1 x2 y2).1 ∧
      (direction_on_ordinate y1 y2).reverse.find?
          (fun b => matchesColor l c ((first_discovered_pixel l c x1 y1 x2 y2).1, b)) =
        some (first_discovered_pixel l c x1 y1 x2 y2).2 := by
  rcases fdpOuter_eq (fun p => matchesColor l c p) (direction_on_ordinate y1 y2)
      (direction_on_abscissa x1 x2) ((0, 0), false) rfl h with ⟨x, y, h1, h2, h3⟩
  have hres : first_discovered_pixel l c x1 y1 x2 y2 = (x, y) := h1
  rw [hres]
  exact ⟨h2, h3⟩

/-- A 1-by-2 layer whose two pixels both carry the outline color 1. -/
def layer1x2 : Layer := ⟨1, 2, fun _ _ => 1⟩

/-- Counterexample to claim C6 as stated: on a 1-by-2 all-outline layer
with box `(0,0)-(0,1)`, scanning x ascending and y ascending, the first
pixel in the literal scan order satisfying the predicate is `(0,0)`, but
`first_discovered_pixel` returns `(0,1)` — the inner loop lacks a
`break`, so the last match of the column wins. -/
theorem C6_counterexample_not_literal_first :
    first_discovered_pixel layer1x2 1 0 0 0 1 = ((0 : ℤ), (1 : ℤ)) ∧
      literal_first_pixel (fun p => matchesColor layer1x2 1 p)
          (direction_on_abscissa 0 0) (direction_on_ordinate 0 1) =
        some ((0 : ℤ), (0 : ℤ)) ∧
      ((0 : ℤ), (1 : ℤ)) ≠ ((0 : ℤ), (0 : ℤ)) := by
  refine ⟨?_, ?_, ?_⟩ <;> decide

/-- Witness for the amended C6 on the 1-by-2 layer. -/
theorem C6_amended_last_match_of_first_column_witness :
    (direction_on_abscissa 0 0).find?
        (fun a => (direction_on_ordinate 0 1).any (fun b => matchesColor layer1x2 1 (a, b))) =
      some (first_discovered_pixel layer1x2 1 0 0 0 1).1 ∧
      (direction_on_ordinate 0 1).reverse.find?
          (fun b => matchesColor layer1x2 1 ((first_discovered_pixel layer1x2 1 0 0 0 1).1, b)) =
        some (first_discovered_pixel layer1x2 1 0 0 0 1).2 :=
  C6_amended_last_match_of_first_column layer1x2 1 0 0 0 1 (by decide)

/- ### Outline extraction and the disconnected-shape fault (claim C7) -/

/-- The fault raised at line 271 of
`hausdorff-distance-directory.py`: a fixed message carrying no pair
index. -/
def disconnectedMsg : String := "There are disconnected elements in the image."

/-- The four seeds discovered by `get_outline_pixels_positions` (lines
229-241): one `first_discovered_pixel` scan from each corner of the
bounding box. -/
def discovered_seeds (l : Layer) (c : ℕ) (x1 y1 x2 y2 : ℤ) : List Point :=
  [first_discovered_pixel l c x1 y1 x2 y2,
    first_discovered_pixel l c x2 y1 x1 y2,
    first_discovered_pixel l c x1 y2 x2 y1,
    first_discovered_pixel l c x2 y2 x1 y1]

/-- Inner loop of the pairwise connectivity check (lines 265-271): for
each `other_pixel`, raise when the two pixels differ and
`are_pixels_connected` did not return `True` (Python's `not` treats both
`False` and `None` as failure). -/
def connCheckInner (l : Layer) (c : ℕ) (fuel : ℕ) (t : Point) :
    List Point → Except String Unit
  | [] => .ok ()
  | o :: rest =>
    if t ≠ o ∧ ¬(are_pixels_connected l c fuel t none t o []).1 = some true then
      .error disconnectedMsg
    else connCheckInner l c fuel t rest

/-- Outer loop of the pairwise connectivity check. -/
def connCheckOuter (l : Layer) (c : ℕ) (fuel : ℕ) (seeds : List Point) :
    List Point → Except String Unit
  | [] => .ok ()
  | t :: rest =>
    match connCheckInner l c fuel t seeds with
    | .ok _ => connCheckOuter l c fuel seeds rest
    | .error e => .error e

/-- The connectivity-check phase over the discovered seeds. -/
def connectivity_check (l : Layer) (c : ℕ) (fuel : ℕ) (seeds : List Point) :
    Except String Unit :=
  connCheckOuter l c fuel seeds seeds

/-- Core of v2's `get_outline_pixels_positions` (lines 209-279): seed
discovery, then the pairwise connectivity check (raising the
disconnected-elements fault), then the trace from the first seed.  The
selection/shrink/fill steps between are delegated to the external image
editor and leave the outline-colored ring unmodified, so they do not
appear in the model. -/
def get_outline_pixels_positions (l : Layer) (c : ℕ) (fuel : ℕ) (x1 y1 x2 y2 : ℤ) :
    Except String (List Point) :=
  let seeds := discovered_seeds l c x1 y1 x2 y2
  match connectivity_check l c fuel seeds with
  | .error e => .error e
  | .ok _ => .ok (search_outline_pixels l c fuel (seeds.headD (0, 0)) none [])

theorem connFoldl_aux (l : Layer) (c : ℕ) (fuel : ℕ) (pixel startP targetP : Point)
    (ts : List Point) :
    ∀ st : Option Bool × List Point,
      ((ts.foldl
          (fun st t =>
            match st with
            | (none, v) => (none, v)
            | (some disc, v) =>
              if t ∈ v then (some disc, v)
              else
                match are_pixels_connected l c fuel t (some pixel) startP targetP v with
                | (none, v2) => (none, v2)
                | (some b, v2) => (some (disc || b), v2))
          st).1 = some true) →
      st.1 = some true ∨
        ∃ t ∈ ts, ∃ v,
          (are_pixels_connected l c fuel t (some pixel) startP targetP v).1 = some true := by
  induction ts with
  | nil => intro st h; exact Or.inl h
  | cons t rest ih =>
    intro st h
    rw [List.foldl_cons] at h
    rcases ih _ h with hstep | ⟨t2, ht2, v, hv⟩
    · rcases st with ⟨o, v⟩
      cases o with
      | none => dsimp only at hstep; exact absurd hstep (by simp)
      | some disc =>
        dsimp only at hstep
        by_cases htv : t ∈ v
        · rw [if_pos htv] at hstep
          exact Or.inl hstep
        · rw [if_neg htv] at hstep
          rcases hrec : are_pixels_connected l c fuel t (some pixel) startP targetP v with
            ⟨r, v2⟩
          rw [hrec] at hstep
          cases r with
          | none => dsimp only at hstep; exact absurd hstep (by simp)
          | some b =>
            dsimp only at hstep
            have hb : (disc || b) = true := Option.some.inj hstep
            rcases Bool.or_eq_true_iff.mp hb with hb1 | hb1
            · exact Or.inl (by simp [hb1])
            · refine Or.inr ⟨t, by simp, v, ?_⟩
              rw [hrec]
              simp [hb1]
    · exact Or.inr ⟨t2, by simp [ht2], v, hv⟩

/-- Soundness of `are_pixels_connected`: a `True` result means the start
pixel really is connected to the target by a 4-connected path of
outline-colored pixels. -/
theorem are_pixels_connected_sound (l : Layer) (c : ℕ) (startP targetP : Point) :
    ∀ (fuel : ℕ) (pixel : Point) (fromP : Option Point) (vis : List Point),
      (are_pixels_connected l c fuel pixel fromP startP targetP vis).1 = some true →
      Reach l c pixel targetP := by
  intro fuel
  induction fuel with
  | zero =>
    intro pixel fromP vis h
    exact absurd h (by simp [are_pixels_connected])
  | succ fuel ih =>
    intro pixel fromP vis h
    simp only [are_pixels_connected] at h
    cases hg : get_pixel l pixel with
    | none => rw [hg] at h; exact absurd h (by simp)
    | some c2 =>
      rw [hg] at h
      dsimp only at h
      by_cases hc : c2 = c
      · rw [if_pos hc] at h
        have hm : matchesColor l c pixel = true := by
          simp [matchesColor, hg, hc]
        by_cases htp : pixel = targetP ∧ fromP ≠ none
        · rcases htp with ⟨h1, _⟩
          cases h1
          exact Reach.refl _ hm
        · rw [if_neg htp] at h
          by_cases hsp : pixel = startP ∧ fromP ≠ none
          · rw [if_pos hsp] at h
            exact absurd h (by simp)
          · rw [if_neg hsp] at h
            rcases connFoldl_aux l c fuel pixel startP targetP _ _ h with hinit | ⟨t, htm, v, hv⟩
            · exact absurd hinit (by simp)
            · have htn : t ∈ neighbors4 pixel := by
                rcases hf : fromP with _ | f
                · rw [hf] at htm; exact htm
                · rw [hf] at htm; exact List.mem_of_mem_erase htm
              exact Reach.step pixel t targetP hm htn (ih t (some pixel) v hv)
      · rw [if_neg hc] at h
        exact absurd h (by simp)

theorem connCheckInner_ok_forall (l : Layer) (c : ℕ) (fuel : ℕ) (t : Point) :
    ∀ os : List Point, connCheckInner l c fuel t os = .ok () →
      ∀ o ∈ os, t ≠ o → (are_pixels_connected l c fuel t none t o []).1 = some true := by
  intro os
  induction os with
  | nil =>
    intro _ o ho
    exact absurd ho (List.not_mem_nil o)
  | cons o2 rest ih =>
    intro h o ho hne
    rw [connCheckInner] at h
    by_cases hcond : t ≠ o2 ∧ ¬(are_pixels_connected l c fuel t none t o2 []).1 = some true
    · rw [if_pos hcond] at h
      exact Except.noConfusion h
    · rw [if_neg hcond] at h
      push_neg at hcond
      rcases List.mem_cons.mp ho with rfl | hmem
      · exact hcond hne
      · exact ih h o hmem hne

theorem connCheckInner_ok_or_err (l : Layer) (c : ℕ) (fuel : ℕ) (t : Point) :
    ∀ os : List Point, connCheckInner l c fuel t os = .ok () ∨
      connCheckInner l c fuel t os = .error disconnectedMsg := by
  intro os
  induction os with
  | nil => exact Or.inl rfl
  | cons o2 rest ih =>
    rw [connCheckInner]
    by_cases hcond : t ≠ o2 ∧ ¬(are_pixels_connected l c fuel t none t o2 []).1 = some true
    · rw [if_pos hcond]; exact Or.inr rfl
    · rw [if_neg hcond]; exact ih

theorem connCheckOuter_ok_forall (l : Layer) (c : ℕ) (fuel : ℕ) (seeds : List Point) :
    ∀ ts : List Point, connCheckOuter l c fuel seeds ts = .ok () →
      ∀ t ∈ ts, connCheckInner l c fuel t seeds = .ok () := by
  intro ts
  induction ts with
  | nil =>
    intro _ t ht
    exact absurd ht (List.not_mem_nil t)
  | cons t2 rest ih =>
    intro h t ht
    rw [connCheckOuter] at h
    rcases hinner : connCheckInner l c fuel t2 seeds with e | u
    · rw [hinner] at h
      exact Except.noConfusion h
    · rw [hinner] at h
      rcases List.mem_cons.mp ht with rfl | hmem
      · cases u; exact hinner
      · exact ih h t hmem

theorem connCheckOuter_ok_or_err (l : Layer) (c : ℕ) (fuel : ℕ) (seeds : List Point) :
    ∀ ts : List Point, connCheckOuter l c fuel seeds ts = .ok () ∨
      connCheckOuter l c fuel seeds ts = .error disconnectedMsg := by
  intro ts
  induction ts with
  | nil => exact Or.inl rfl
  | cons t2 rest ih =>
    rw [connCheckOuter]
    rcases connCheckInner_ok_or_err l c fuel t2 seeds with h | h
    · rw [h]; exact ih
    · rw [h]; exact Or.inr rfl

/-- Claim C7, amended: whenever two distinct discovered seed pixels are
not mutually connected by a path of outline-colored pixels, the outline
extraction fails before tracing, with the fixed fault message "There are
disconnected elements in the image." (carrying no pair index).  The
converse direction of the claim is false: the fault can also be raised
when all seed pairs are connected, because an out-of-bounds neighbor
probe poisons `are_pixels_connected` into returning `None`. -/
theorem C7_amended_disconnected_seeds_fault (l : Layer) (c : ℕ) (fuel : ℕ)
    (x1 y1 x2 y2 : ℤ) (t o : Point)
    (ht : t ∈ discovered_seeds l c x1 y1 x2 y2)
    (ho : o ∈ discovered_seeds l c x1 y1 x2 y2)
    (hne : t ≠ o) (hnr : ¬Reach l c t o) :
    get_outline_pixels_positions l c fuel x1 y1 x2 y2 = .error disconnectedMsg := by
  have hnc : (are_pixels_connected l c fuel t none t o []).1 ≠ some true := fun hc =>
    hnr (are_pixels_connected_sound l c t o fuel t none [] hc)
  have hbad : connectivity_check l c fuel (discovered_seeds l c x1 y1 x2 y2) ≠ .ok () := by
    intro hok
    have h1 := connCheckOuter_ok_forall l c fuel _ _ hok t ht
    have h2 := connCheckInner_ok_forall l c fuel t _ h1 o ho hne
    exact hnc h2
  have herr : connectivity_check l c fuel (discovered_seeds l c x1 y1 x2 y2) =
      .error disconnectedMsg := by
    rcases connCheckOuter_ok_or_err l c fuel (discovered_seeds l c x1 y1 x2 y2)
        (discovered_seeds l c x1 y1 x2 y2) with h | h
    · exact absurd h hbad
    · exact h
  simp only [get_outline_pixels_positions]
  rw [herr]

/-- A 3-by-1 layer with outline color at x = 0 and x = 2 only: two
disconnected one-pixel fragments. -/
def layerGap3 : Layer := ⟨3, 1, fun x _ => if x = 1 then 0 else 1⟩

theorem layerGap3_reach_from_origin (p r : Point) (h : Reach layerGap3 1 p r) :
    p = ((0 : ℤ), (0 : ℤ)) → r = ((0 : ℤ), (0 : ℤ)) := by
  induction h with
  | refl q hq => intro he; exact he
  | step p q r hm hq hr ih =>
    intro he
    subst he
    have hqm : matchesColor layerGap3 1 q = true := Reach_matches_left layerGap3 1 q r hr
    simp only [neighbors4, List.mem_cons, List.not_mem_nil, or_false] at hq
    rcases hq with hq | hq | hq | hq <;> subst hq <;> exact absurd hqm (by decide)

/-- Witness for the amended C7: on the two-fragment layer `layerGap3`
with bounding box `(0,0)-(2,0)`, the seeds `(0,0)` and `(2,0)` are
discovered and not mutually connected, and outline extraction fails with
the fixed disconnected-elements message. -/
theorem C7_amended_disconnected_seeds_fault_witness :
    get_outline_pixels_positions layerGap3 1 10 0 0 2 0 = .error disconnectedMsg :=
  C7_amended_disconnected_seeds_fault layerGap3 1 10 0 0 2 0 ((0 : ℤ), (0 : ℤ))
    ((2 : ℤ), (0 : ℤ)) (by decide) (by decide) (by decide)
    (fun h => absurd (layerGap3_reach_from_origin _ _ h rfl) (by decide))

/-- Counterexample to claim C7 as stated: on the 2-by-1 all-outline
layer the four discovered seeds are `(0,0)` and `(1,0)` (twice each),
every pair of distinct seeds IS mutually connected by outline-colored
pixels, yet outline extraction still fails with the
disconnected-elements fault — the out-of-bounds poisoning of
`are_pixels_connected` makes the connected pair test as not
connected. -/
theorem C7_counterexample_connected_pair_rejected :
    discovered_seeds layer2x1 1 0 0 1 0 =
      [((0 : ℤ), (0 : ℤ)), ((1 : ℤ), (0 : ℤ)), ((0 : ℤ), (0 : ℤ)), ((1 : ℤ), (0 : ℤ))] ∧
      Reach layer2x1 1 ((0 : ℤ), (0 : ℤ)) ((1 : ℤ), (0 : ℤ)) ∧
      Reach layer2x1 1 ((1 : ℤ), (0 : ℤ)) ((0 : ℤ), (0 : ℤ)) ∧
      get_outline_pixels_positions layer2x1 1 10 0 0 1 0 = .error disconnectedMsg := by
  refine ⟨by decide, ?_, ?_, rfl⟩
  · exact Reach.step _ _ _ (by decide) (by decide) (Reach.refl _ (by decide))
  · exact Reach.step _ _ _ (by decide) (by decide) (Reach.refl _ (by decide))

end AISP
